import Mathlib

/-!
# AQC_System — verification of the orchestration / policy / aggregation core

Shallow embedding of the status-reconciliation core of the AQC media-QC
pipeline, and proofs about it.  Each definition is translated from the
named Python source file; Python dicts are modeled as records with
optional fields or as ordered association lists, floats as rationals,
and raised exceptions as `Except` / `Option` results.  Definitions come
first, then all lemmas and theorems.
-/

namespace AQC

/-! ## CI decision (`compute_ci`)

The repository carries two implementations:
`src/src/policy/policy_engine.py` (lines 122-135), which merges `ERROR`
and `REJECTED` into one `"ERROR"` bucket, and `src/src/ci/run_ci.py`
(lines 136-153), which short-circuits on `ERROR` and keeps `REJECTED`
distinct.  Both scan the effective-status dict's values, so they are
embedded as functions on the list of status strings. -/

/-- `CI_POLICY` exit-code table, identical in both files.  The Python dict
is only ever indexed at the four listed statuses; the catch-all branch is
unreachable in the embedded uses. -/
def CI_POLICY (s : String) : Int :=
  if s = "PASSED" then 0
  else if s = "WARNING" then 0
  else if s = "REJECTED" then 2
  else if s = "ERROR" then 3
  else 0

/-- Loop of `compute_ci` from `src/src/policy/policy_engine.py`:
`ERROR` or `REJECTED` sets `worst = "ERROR"` and breaks. -/
def policyComputeCiGo : String → List String → String × Int
  | worst, [] => (worst, CI_POLICY worst)
  | worst, s :: rest =>
      if s = "ERROR" ∨ s = "REJECTED" then ("ERROR", CI_POLICY "ERROR")
      else if s = "WARNING" ∧ worst = "PASSED" then policyComputeCiGo "WARNING" rest
      else policyComputeCiGo worst rest

/-- `compute_ci` from `src/src/policy/policy_engine.py` (lines 122-135). -/
def policyComputeCi (statuses : List String) : String × Int :=
  policyComputeCiGo "PASSED" statuses

/-- Loop of `compute_ci` from `src/src/ci/run_ci.py`: `ERROR` returns
immediately; `REJECTED` sets `worst`; `WARNING` only upgrades `PASSED`. -/
def runCiComputeCiGo : String → List String → String × Int
  | worst, [] => (worst, CI_POLICY worst)
  | worst, s :: rest =>
      if s = "ERROR" then ("ERROR", CI_POLICY "ERROR")
      else if s = "REJECTED" then runCiComputeCiGo "REJECTED" rest
      else if s = "WARNING" ∧ worst = "PASSED" then runCiComputeCiGo "WARNING" rest
      else runCiComputeCiGo worst rest

/-- `compute_ci` from `src/src/ci/run_ci.py` (lines 136-153). -/
def runCiComputeCi (statuses : List String) : String × Int :=
  runCiComputeCiGo "PASSED" statuses

/-! ## Per-module status escalation

`MasterAggregator.aggregate` (`src/src/postprocess/master_aggregator.py`,
lines 24-53) registers a module with status `"PASSED"` and then, for each
incoming report, upgrades the stored status to `"REJECTED"` when the
incoming status is `"REJECTED"`, or to `"WARNING"` when the incoming
status is `"WARNING"` and the stored one is not `"REJECTED"`; no other
incoming status (in particular `"ERROR"` or `"CRASHED"`) changes it.

`aggregate_segments` (`src/src/pipeline/segment_master_aggregator.py`,
lines 31-96) stores, per module, the first `effective_status` seen and
afterwards only increments a `segments_seen` counter, while a run-level
`worst_rank` tracks the maximum of `status_rank`. -/

/-- One escalation step of `MasterAggregator.aggregate`. -/
def escalateStatus (stored incoming : String) : String :=
  if incoming = "REJECTED" then "REJECTED"
  else if incoming = "WARNING" ∧ stored ≠ "REJECTED" then "WARNING"
  else stored

/-- Stored status of one module after `MasterAggregator.aggregate` has seen
the given sequence of report statuses for it (module registered as
`"PASSED"`, then escalated once per report). -/
def moduleStoredStatus (statuses : List String) : String :=
  statuses.foldl escalateStatus "PASSED"

/-- `status_rank` table of `aggregate_segments`; `.get(status, 0)` makes
unknown statuses rank 0. -/
def statusRank (s : String) : Nat :=
  if s = "PASSED" then 0
  else if s = "WARNING" then 1
  else if s = "REJECTED" then 2
  else if s = "ERROR" then 3
  else 0

/-- Per-module bookkeeping step of `aggregate_segments`: the first report
creates the record with its effective status; later reports only bump
`segments_seen`. -/
def segModuleStore (cur : Option (String × Nat)) (incoming : String) : Option (String × Nat) :=
  match cur with
  | none => some (incoming, 1)
  | some (s, n) => some (s, n + 1)

/-- Per-module record of `aggregate_segments` after the given sequence of
effective statuses for one module. -/
def segModuleRecord (statuses : List String) : Option (String × Nat) :=
  statuses.foldl segModuleStore none

/-- Run-level worst rank of `aggregate_segments`. -/
def segWorstRank (statuses : List String) : Nat :=
  statuses.foldl (fun w s => max w (statusRank s)) 0

/-! ## Data model

Validator report dicts are modeled as a record of optional fields (a key
is present iff the field is `some`); report event dicts carry the fields
of the §3 Event data model, with times as rationals.  Deviation blocks
and detail dicts are ordered association lists, matching Python dict
insertion order. -/

/-- An event dict from a validator report (`type`, `start_time`,
`end_time`, `details`, optional `severity` and `source_module`); times
are modeled as rationals. -/
structure Event where
  type : String
  start_time : Rat
  end_time : Rat
  details : String
  severity : Option String := none
  source_module : Option String := none
deriving DecidableEq

/-- A deviation block / generic string-valued dict. -/
abbrev DevBlock := List (String × String)

/-- A validator report dict: each field is `some` exactly when the key is
present.  `details?` models the `{error, log}` dict of a synthesized crash
report. -/
structure ReportDict where
  module? : Option String := none
  video_file? : Option String := none
  status? : Option String := none
  effective_status? : Option String := none
  error_code? : Option String := none
  metrics? : Option (List (String × Rat)) := none
  events? : Option (List Event) := none
  details? : Option (String × String) := none
deriving DecidableEq

/-- Python `dict[k] = v` on an ordered association list: overwrite in place
if the key exists, else append. -/
def dictSet {β : Type} (d : List (String × β)) (k : String) (v : β) : List (String × β) :=
  if d.any (fun p => p.1 == k) then d.map (fun p => if p.1 == k then (k, v) else p)
  else d ++ [(k, v)]

/-- Python `needle in hay` prefix test helper on character lists. -/
def leadMatch : List Char → List Char → Bool
  | [], _ => true
  | _ :: _, [] => false
  | a :: as, b :: bs => a == b && leadMatch as bs

/-- Python substring containment helper on character lists. -/
def hasChunk : List Char → List Char → Bool
  | needle, [] => needle.isEmpty
  | needle, h :: t => leadMatch needle (h :: t) || hasChunk needle t

/-- Python `needle in hay` on strings (substring containment). -/
def strIn (needle hay : String) : Bool :=
  hasChunk needle.data hay.data

/-- `true` iff the `Except` value is a success (statement helper: a raised
`ValueError` is an `Except.error`). -/
def exceptOk {ε α : Type} : Except ε α → Bool
  | .ok _ => true
  | .error _ => false

/-! ## Schema validator (`src/src/schema/qc_schema.py`) -/

/-- `STATUS_ENUM` from `src/src/schema/qc_schema.py` (lines 6-11): only the
four base statuses; `CRASHED` and `NOT_APPLICABLE` are not members. -/
def STATUS_ENUM : List String := ["PASSED", "WARNING", "REJECTED", "ERROR"]

/-- `validate_validator_output` from `src/src/schema/qc_schema.py`
(lines 67-97): checks the five required keys, then membership of `status`
in `STATUS_ENUM`, then that a non-PASSED report has non-empty `events`;
`ValueError` is modeled as `Except.error`. -/
def validateValidatorOutput (r : ReportDict) : Except String Bool :=
  match r.module?, r.video_file?, r.status?, r.metrics?, r.events? with
  | some _, some _, some status, some _, some events =>
      if status ∉ STATUS_ENUM then
        .error ("Invalid validator status: " ++ status)
      else if status ≠ "PASSED" ∧ events = [] then
        .error "status not PASSED but no events emitted"
      else
        .ok true
  | _, _, _, _, _ => .error "Validator output missing required keys"

/-- The Status enum as claim C8 words it: the spec's §3 data model, where
the closed enum also contains the terminal synthetic states `CRASHED` and
`NOT_APPLICABLE`.  (Definition follows the claim's words, for comparison
with `STATUS_ENUM` from the code.) -/
def c8ClaimStatusEnum : List String :=
  ["PASSED", "WARNING", "REJECTED", "ERROR", "CRASHED", "NOT_APPLICABLE"]

/-! ## Policy resolution (`resolve_module_status`)

Again two implementations: `src/src/policy/policy_engine.py`
(lines 82-116) indexes `module_report["status"]` / `["module"]` directly
(a missing key raises, modeled as `Except.error`) and applies a deviation
as soon as its `module` matches; `src/src/ci/run_ci.py` (lines 85-130)
uses `.get` everywhere and additionally requires the deviation's
`condition` to equal the report's `error_code`. -/

/-- `TOOLING_MODULES`, identical in both files. -/
def TOOLING_MODULES : List String := ["qctools_qc"]

/-- `DEVIATION_ELIGIBLE_ERRORS`, identical in both files. -/
def DEVIATION_ELIGIBLE_ERRORS : List String :=
  ["QCTOOLS_UNAVAILABLE", "QCTOOLS_NOT_INSTALLED", "QCTOOLS_BUILD_MISSING"]

/-- The policy note attached when a deviation fires:
`f"Deviation applied: {dev.get('id')}"` (Python renders a missing id as
`None`). -/
def devAppliedNote (dev : DevBlock) : String :=
  "Deviation applied: " ++ ((List.lookup "id" dev).getD "None")

/-- Python `x in list_of_strings` where `x` may be `None` (`None` is never
a member). -/
def optIn (o : Option String) (l : List String) : Bool :=
  match o with
  | some x => decide (x ∈ l)
  | none => false

/-- Deviation match test of the `run_ci.py` resolver: both the `module`
and the `condition` entries must equal the report's values. -/
def runCiDevMatches (module errorCode : Option String) (dev : DevBlock) : Bool :=
  (List.lookup "module" dev == module) && (List.lookup "condition" dev == errorCode)

/-- `resolve_module_status` from `src/src/ci/run_ci.py` (lines 85-130).
All report fields are read with `.get`, so the result status is the raw
(possibly absent) status value in the fall-through branches. -/
def runCiResolve (r : ReportDict) (profile : String) (devs : List DevBlock) :
    Option String × List String :=
  let status := r.status?
  let module := r.module?
  let errorCode := r.error_code?
  if status = some "PASSED" ∨ status = some "WARNING" then (status, [])
  else if status = some "REJECTED" then (status, [])
  else if status = some "ERROR" then
    if profile = "strict" then (status, [])
    else if optIn module TOOLING_MODULES && optIn errorCode DEVIATION_ELIGIBLE_ERRORS then
      match devs.find? (runCiDevMatches module errorCode) with
      | some dev => (some "NOT_APPLICABLE", [devAppliedNote dev])
      | none => (status, [])
    else (status, [])
  else (status, [])

/-- `resolve_module_status` from `src/src/policy/policy_engine.py`
(lines 82-116).  `module_report["status"]` and `["module"]` are indexed
directly (KeyError modeled as `Except.error`); the deviation loop checks
only `dev.get("module")`. -/
def policyResolve (r : ReportDict) (profile : String) (devs : List DevBlock) :
    Except String (String × List String) :=
  match r.status?, r.module? with
  | some status, some module =>
      let errorCode := r.error_code?
      .ok (
        if status = "PASSED" ∨ status = "WARNING" then (status, [])
        else if status = "REJECTED" then (status, [])
        else if status = "ERROR" then
          if profile = "strict" then (status, [])
          else if optIn (some module) TOOLING_MODULES &&
              optIn errorCode DEVIATION_ELIGIBLE_ERRORS then
            match devs.find? (fun dev => List.lookup "module" dev == some module) with
            | some dev => ("NOT_APPLICABLE", [devAppliedNote dev])
            | none => (status, [])
          else (status, [])
        else (status, []))
  | _, _ => .error "KeyError"

/-! ## Deviation loading (`load_known_deviations`)

Both implementations parse the flat-text file into blank-line-separated
`key: value` blocks and commit a block through a `try/except` that reads
`block["expires"]` — although the documented record format (spec §6) and
the repository's own `KNOWN_DEVIATION_SCHEMA` in `qc_schema.py` name the
expiry key `expires_on`, so the swallowed `KeyError` silently discards
every documented-format block. -/

/-- A calendar date as parsed by `datetime.strptime(s, "%Y-%m-%d")`. -/
structure PDate where
  y : Nat
  m : Nat
  d : Nat
deriving DecidableEq

/-- Strict date comparison (`expires < today`). -/
def PDate.ltB (a b : PDate) : Bool :=
  a.y < b.y || (a.y == b.y && (a.m < b.m || (a.m == b.m && a.d < b.d)))

/-- ASCII whitespace as stripped by Python `str.strip()`. -/
def isPySpace (c : Char) : Bool :=
  c == ' ' || c == '\t' || c == '\n' || c == '\r' || c == '\x0b' || c == '\x0c'

/-- Drop leading whitespace from a character list. -/
def dropLeadSpace : List Char → List Char
  | [] => []
  | c :: cs => if isPySpace c then dropLeadSpace cs else c :: cs

/-- Python `line.strip()`. -/
def pyStrip (s : String) : String :=
  ⟨(dropLeadSpace (dropLeadSpace s.data).reverse).reverse⟩

/-- Split a character list at the first occurrence of `':'`
(Python `line.split(":", 1)`); `none` when there is no colon. -/
def splitFirstColon : List Char → Option (List Char × List Char)
  | [] => none
  | c :: cs =>
      if c == ':' then some ([], cs)
      else (splitFirstColon cs).map (fun p => (c :: p.1, p.2))

/-- Models `if ":" in line: k, v = line.split(":", 1)` with both halves
stripped; `none` when the line has no colon. -/
def splitKV (line : String) : Option (String × String) :=
  (splitFirstColon line.data).map (fun p => (pyStrip ⟨p.1⟩, pyStrip ⟨p.2⟩))

/-- Split a character list on every occurrence of a separator
(Python `s.split(sep)`). -/
def splitChar (sep : Char) : List Char → List (List Char)
  | [] => [[]]
  | c :: cs =>
      if c == sep then [] :: splitChar sep cs
      else
        match splitChar sep cs with
        | [] => [[c]]
        | g :: gs => (c :: g) :: gs

/-- Accumulating decimal-digit parser. -/
def digitsValGo : Nat → List Char → Option Nat
  | acc, [] => some acc
  | acc, c :: cs =>
      if c.isDigit then digitsValGo (acc * 10 + (c.toNat - '0'.toNat)) cs else none

/-- Parse a non-empty all-digit character list as a natural number. -/
def digitsVal : List Char → Option Nat
  | [] => none
  | c :: cs => digitsValGo 0 (c :: cs)

/-- Models `datetime.strptime(s, "%Y-%m-%d").date()`: three dash-separated
numeric fields with month/day range checks; `none` where `strptime` raises
`ValueError`.  (Exact per-month day-count validation is not modeled; no
claim depends on it.) -/
def parseDate (s : String) : Option PDate :=
  match splitChar '-' s.data with
  | [ys, ms, ds] =>
      match digitsVal ys, digitsVal ms, digitsVal ds with
      | some y, some m, some d =>
          if 1 ≤ m ∧ m ≤ 12 ∧ 1 ≤ d ∧ d ≤ 31 ∧ y ≤ 9999 then some ⟨y, m, d⟩
          else none
      | _, _, _ => none
  | _ => none

/-- `_commit` from `src/src/policy/policy_engine.py`: the block must have a
`profiles` entry containing the profile as a substring and an `expires`
entry parsing to an unexpired date; any failure (including the `KeyError`
when the key is spelled `expires_on`) is swallowed and the block
discarded. -/
def policyCommit (today : PDate) (profile : String) (devs : List DevBlock)
    (block : DevBlock) : List DevBlock :=
  match List.lookup "profiles" block with
  | none => devs
  | some profs =>
      if strIn profile profs = false then devs
      else
        match List.lookup "expires" block with
        | none => devs
        | some es =>
            match parseDate es with
            | none => devs
            | some expires => if PDate.ltB expires today then devs else devs ++ [block]

/-- `_commit_deviation` from `src/src/ci/run_ci.py`: only the `expires`
entry is checked (profiles are handled by the caller's `ott` gate). -/
def runCiCommit (today : PDate) (devs : List DevBlock) (block : DevBlock) :
    List DevBlock :=
  match List.lookup "expires" block with
  | none => devs
  | some es =>
      match parseDate es with
      | none => devs
      | some expires => if PDate.ltB expires today then devs else devs ++ [block]

/-- One line of the block-parsing loop shared by both loaders: a blank
(stripped) line commits the pending block via the given commit function;
a `key: value` line extends the pending block; other lines are ignored. -/
def loadStep (commit : List DevBlock → DevBlock → List DevBlock)
    (acc : List DevBlock × DevBlock) (rawLine : String) : List DevBlock × DevBlock :=
  let line := pyStrip rawLine
  if line = "" then
    if acc.2 ≠ [] then (commit acc.1 acc.2, []) else acc
  else
    match splitKV line with
    | some (k, v) => (acc.1, dictSet acc.2 k v)
    | none => acc

/-- Fold of the parsing loop plus the trailing `if block:` commit. -/
def loadBlocks (commit : List DevBlock → DevBlock → List DevBlock)
    (lines : List String) : List DevBlock :=
  let acc := lines.foldl (loadStep commit) ([], [])
  if acc.2 ≠ [] then commit acc.1 acc.2 else acc.1

/-- `load_known_deviations` from `src/src/policy/policy_engine.py`
(lines 33-76), over the file's lines; `today` is `datetime.utcnow().date()`.
(The `md_path.exists()` guard is outside the model: the lines are given.) -/
def loadKnownDeviationsPolicy (lines : List String) (today : PDate)
    (profile : String) : List DevBlock :=
  loadBlocks (policyCommit today profile) lines

/-- `load_known_deviations` from `src/src/ci/run_ci.py` (lines 33-79):
profiles other than `ott` get no deviations at all. -/
def loadKnownDeviationsRunCi (lines : List String) (today : PDate)
    (profile : String) : List DevBlock :=
  if profile ≠ "ott" then [] else loadBlocks (runCiCommit today) lines

/-- The deviation record of spec §6 / `KNOWN_DEVIATIONS.md`, with a
far-future `expires_on` and `profiles: ott`, as file lines. -/
def sampleDeviationLines : List String :=
  ["id: DEV-001",
   "module: qctools_qc",
   "condition: QCTOOLS_UNAVAILABLE",
   "scope: all",
   "justification: tool not installed in this environment",
   "approved_by: qa-lead",
   "created_on: 2025-01-01",
   "expires_on: 2099-12-31",
   "profiles: ott"]

/-! ## Execution supervisor (`run_validator_with_retry`, `src/main.py`)

The retry loop `for attempt in range(1, MAX_RETRIES + 2)` makes exactly
`MAX_RETRIES + 1` subprocess attempts unless one succeeds first.  An
attempt is modeled by the observable outcome of its subprocess: the exit
code and the state of the output file afterwards (`none` = missing,
`corrupt` = present but not JSON-parseable, `valid` = parseable report).
Wall-clock durations and log text are not modeled. -/

/-- `MAX_RETRIES` from `src/main.py`. -/
def MAX_RETRIES : Nat := 2

/-- State of the report file on disk. -/
inductive FileContent where
  | corrupt : FileContent
  | valid : ReportDict → FileContent
deriving DecidableEq

/-- Observable outcome of one subprocess attempt. -/
structure Attempt where
  exitCode : Int
  file : Option FileContent
deriving DecidableEq

/-- The success test of the loop body: exit code 0, output file exists and
parses as JSON. -/
def attemptSuccess (a : Attempt) : Bool :=
  a.exitCode == 0 &&
    (match a.file with
     | some (.valid _) => true
     | _ => false)

/-- The dict returned by `run_validator_with_retry` (duration omitted). -/
structure RunSummary where
  module : String
  status : String
deriving DecidableEq

/-- Result of the supervisor: returned summary, final state of the report
file, and number of subprocess attempts made. -/
structure SupRun where
  result : RunSummary
  finalFile : Option FileContent
  attemptsUsed : Nat
deriving DecidableEq

/-- `d.get("effective_status", d.get("status", "UNKNOWN"))`. -/
def statusFromReport (d : ReportDict) : String :=
  d.effective_status?.getD (d.status?.getD "UNKNOWN")

/-- The synthesized "Ghost" crash report of `src/main.py` (lines 132-144):
only `module`, `status`, `effective_status` and `details` keys. -/
def crashReportDict (module : String) : ReportDict :=
  { module? := some module,
    status? := some "CRASHED",
    effective_status? := some "CRASHED",
    details? := some ("Module failed after retries", "Subprocess error") }

/-- The retry loop over the (remaining) attempt outcomes: first success
returns its parsed report; exhaustion writes the crash report to the
output path. -/
def runRetryGo (module : String) : List Attempt → SupRun
  | [] =>
      { result := { module := module, status := "CRASHED" },
        finalFile := some (.valid (crashReportDict module)),
        attemptsUsed := 0 }
  | a :: rest =>
      match a.file, a.exitCode == 0 with
      | some (.valid d), true =>
          { result := { module := module, status := statusFromReport d },
            finalFile := some (.valid d),
            attemptsUsed := 1 }
      | _, _ =>
          let r := runRetryGo module rest
          { r with attemptsUsed := r.attemptsUsed + 1 }

/-- `run_validator_with_retry` from `src/main.py` (lines 76-150), driven by
an oracle giving the outcome of the i-th attempt (attempts numbered from
1 as in `range(1, MAX_RETRIES + 2)`). -/
def runValidatorWithRetry (module : String) (att : Nat → Attempt) : SupRun :=
  runRetryGo module ((List.range (MAX_RETRIES + 1)).map (fun i => att (i + 1)))

/-! ## Detail merging and time offsets (`MasterAggregator._merge_details`,
`src/src/postprocess/master_aggregator.py` lines 55-95, and the event
normalization of `generate_master_report.main`,
`src/src/postprocess/generate_master_report.py` lines 93-110) -/

/-- A dict item inside a list-valued detail entry, with the five time-field
names the spec talks about (a key is present iff the field is `some`). -/
structure EItem where
  timestamp : Option Rat := none
  start_sec : Option Rat := none
  end_sec : Option Rat := none
  start_time : Option Rat := none
  end_time : Option Rat := none
deriving DecidableEq

/-- An entry of a list-valued detail metric: a dict (adjusted) or a bare
scalar (appended unchanged). -/
inductive DetailItem where
  | dict : EItem → DetailItem
  | scalar : Rat → DetailItem
deriving DecidableEq

/-- A detail-dict value: a number or a list.  (String-valued scalars are
outside the model; the scalar-merging branch only touches numbers.) -/
inductive DetailValue where
  | num : Rat → DetailValue
  | list : List DetailItem → DetailValue
deriving DecidableEq

/-- Python `round(x, 3)`: round half to even at 3 decimal places, on ℚ. -/
def pyRound3 (q : Rat) : Rat :=
  let s := q * 1000
  let f : Int := s.floor
  let r := s - (f : Rat)
  let n : Int :=
    if r < 1 / 2 then f
    else if 1 / 2 < r then f + 1
    else if f % 2 = 0 then f else f + 1
  (n : Rat) / 1000

/-- The per-item adjustment of `_merge_details`: `item.copy()` with
`timestamp`, `start_sec` and `end_sec` (when present) replaced by
`round(value + offset_sec, 3)`; all other fields (including `start_time`
and `end_time`) copied unchanged. -/
def adjustItem (offset : Rat) (it : EItem) : EItem :=
  { it with
    timestamp := it.timestamp.map (fun t => pyRound3 (t + offset)),
    start_sec := it.start_sec.map (fun t => pyRound3 (t + offset)),
    end_sec := it.end_sec.map (fun t => pyRound3 (t + offset)) }

/-- List-entry adjustment: dict items are adjusted, other items appended
as-is. -/
def adjustDetailItem (offset : Rat) : DetailItem → DetailItem
  | .dict e => .dict (adjustItem offset e)
  | x => x

/-- One `for key, value in segment_details.items()` iteration of
`_merge_details`: list values are offset-adjusted and appended to the
master entry (created empty if absent); numeric scalars are reduced by
the field-name rules (`mean_phase` average, `min_phase` min,
`offset`/`error` max, otherwise first value kept).  Branches where Python
would raise on mixed types (extending a number, averaging a list) leave
the master dict unchanged. -/
def mergeDetailsStep (offset : Rat) (master : List (String × DetailValue))
    (kv : String × DetailValue) : List (String × DetailValue) :=
  match kv.2 with
  | .list xs =>
      let adjusted := xs.map (adjustDetailItem offset)
      match List.lookup kv.1 master with
      | some (.list ys) => dictSet master kv.1 (.list (ys ++ adjusted))
      | some (.num _) => master
      | none => dictSet master kv.1 (.list adjusted)
  | .num v =>
      match List.lookup kv.1 master with
      | none => dictSet master kv.1 (.num v)
      | some (.num old) =>
          if strIn "mean_phase" kv.1 then dictSet master kv.1 (.num ((old + v) / 2))
          else if strIn "min_phase" kv.1 then dictSet master kv.1 (.num (min old v))
          else if strIn "offset" kv.1.toLower || strIn "error" kv.1.toLower then
            dictSet master kv.1 (.num (max old v))
          else master
      | some (.list _) => master

/-- `MasterAggregator._merge_details` over the segment detail dict. -/
def mergeDetails (master seg : List (String × DetailValue)) (offset : Rat) :
    List (String × DetailValue) :=
  seg.foldl (mergeDetailsStep offset) master

/-- The per-event normalization of `generate_master_report.main`:
`start_time` and `end_time` are increased by the report's
`segment_offset_sec` and `source_module` is set; no other field is
touched. -/
def normalizeEvent (offset : Rat) (moduleName : String) (e : Event) : Event :=
  { e with
    start_time := e.start_time + offset,
    end_time := e.end_time + offset,
    source_module := some moduleName }

/-! ## Event stitching (`stitch_events`,
`src/src/postprocess/generate_master_report.py` lines 6-43)

`sorted(events, key=...)` is Python's stable sort; it is embedded as
insertion sort with the non-strict key order, which is stable with the
same tie-breaking.  Events are the total-field records of the data model,
so the `.get(..., default)` reads of the source always see the field. -/

/-- Comparison by a key function (the order used by
`sorted(l, key=k)`). -/
abbrev keyLe {α κ : Type} [LinearOrder κ] (k : α → κ) (a b : α) : Prop :=
  k a ≤ k b

instance {α κ : Type} [LinearOrder κ] (k : α → κ) : IsTotal α (keyLe k) :=
  ⟨fun a b => le_total (k a) (k b)⟩

instance {α κ : Type} [LinearOrder κ] (k : α → κ) : IsTrans α (keyLe k) :=
  ⟨fun _ _ _ hab hbc => le_trans hab hbc⟩

instance {α κ : Type} [LinearOrder κ] (k : α → κ) : DecidableRel (keyLe k) :=
  fun a b => inferInstanceAs (Decidable (k a ≤ k b))

/-- `sorted(l, key=k)`: a stable sort by the key. -/
def pySorted {α κ : Type} [LinearOrder κ] (k : α → κ) (l : List α) : List α :=
  l.insertionSort (keyLe k)

/-- The first sort key of `stitch_events`:
`(x.get("type", "unknown"), x.get("start_time", 0))`, compared
lexicographically as Python compares tuples. -/
def tsKey (e : Event) : String ×ₗ Rat :=
  toLex (e.type, e.start_time)

/-- The final sort key of `stitch_events`: `x.get("start_time", 0)`. -/
def startKey (e : Event) : Rat :=
  e.start_time

/-- The merge of two adjacent same-type events: extend `end_time` to the
max and append the next event's details (separated by `" | "`) unless
already a substring. -/
def mergeEvents (cur nxt : Event) : Event :=
  { cur with
    end_time := max cur.end_time nxt.end_time,
    details :=
      if strIn nxt.details cur.details then cur.details
      else cur.details ++ " | " ++ nxt.details }

/-- The walk of `stitch_events` over the `(type, start_time)`-sorted list:
merge the next event into the current one when it has the same type and
starts within `tolerance` of the current end; otherwise emit the current
event and continue from the next. -/
def stitchWalk (tol : Rat) : Event → List Event → List Event
  | cur, [] => [cur]
  | cur, e :: rest =>
      if cur.type = e.type ∧ e.start_time ≤ cur.end_time + tol then
        stitchWalk tol (mergeEvents cur e) rest
      else
        cur :: stitchWalk tol e rest

/-- `stitch_events` from `src/src/postprocess/generate_master_report.py`
(lines 6-43): sort by `(type, start_time)`, walk and merge, then re-sort
by `start_time` for the report. -/
def stitch_events (tol : Rat) (events : List Event) : List Event :=
  match pySorted tsKey events with
  | [] => []
  | c :: rest => pySorted startKey (stitchWalk tol c rest)

/-- Separation of two adjacent emitted events: same type implies a gap
larger than the tolerance (the negation of the merge test). -/
def sepAt (tol : Rat) (a b : Event) : Prop :=
  a.type = b.type → a.end_time + tol < b.start_time

/-! ## Theorems -/

lemma runCiComputeCiGo_rejected (l : List String) :
    runCiComputeCiGo "REJECTED" l =
      (if "ERROR" ∈ l then ("ERROR", 3) else ("REJECTED", 2)) := by
  induction l with
  | nil => simp [runCiComputeCiGo, CI_POLICY]
  | cons s rest ih =>
      by_cases hE : s = "ERROR"
      · subst hE; simp [runCiComputeCiGo, CI_POLICY]
      · by_cases hR : s = "REJECTED"
        · subst hR
          simp [runCiComputeCiGo, hE, ih, List.mem_cons, Ne.symm hE]
        · simp [runCiComputeCiGo, hE, hR, ih, List.mem_cons, Ne.symm hE]

lemma runCiComputeCiGo_warning (l : List String) :
    runCiComputeCiGo "WARNING" l =
      (if "ERROR" ∈ l then ("ERROR", 3)
       else if "REJECTED" ∈ l then ("REJECTED", 2)
       else ("WARNING", 0)) := by
  induction l with
  | nil => simp [runCiComputeCiGo, CI_POLICY]
  | cons s rest ih =>
      by_cases hE : s = "ERROR"
      · subst hE; simp [runCiComputeCiGo, CI_POLICY]
      · by_cases hR : s = "REJECTED"
        · subst hR
          simp [runCiComputeCiGo, hE, runCiComputeCiGo_rejected, List.mem_cons, Ne.symm hE]
        · simp [runCiComputeCiGo, hE, hR, ih, List.mem_cons, Ne.symm hE, Ne.symm hR]

lemma runCiComputeCiGo_passed (l : List String) :
    runCiComputeCiGo "PASSED" l =
      (if "ERROR" ∈ l then ("ERROR", 3)
       else if "REJECTED" ∈ l then ("REJECTED", 2)
       else if "WARNING" ∈ l then ("WARNING", 0)
       else ("PASSED", 0)) := by
  induction l with
  | nil => simp [runCiComputeCiGo, CI_POLICY]
  | cons s rest ih =>
      by_cases hE : s = "ERROR"
      · subst hE; simp [runCiComputeCiGo, CI_POLICY]
      · by_cases hR : s = "REJECTED"
        · subst hR
          simp [runCiComputeCiGo, hE, runCiComputeCiGo_rejected, List.mem_cons, Ne.symm hE]
        · by_cases hW : s = "WARNING"
          · subst hW
            simp [runCiComputeCiGo, hE, hR, runCiComputeCiGo_warning, List.mem_cons,
              Ne.symm hE, Ne.symm hR]
          · simp [runCiComputeCiGo, hE, hR, hW, ih, List.mem_cons,
              Ne.symm hE, Ne.symm hR, Ne.symm hW]

lemma policyComputeCiGo_warning (l : List String) :
    policyComputeCiGo "WARNING" l =
      (if "ERROR" ∈ l ∨ "REJECTED" ∈ l then ("ERROR", 3) else ("WARNING", 0)) := by
  induction l with
  | nil => simp [policyComputeCiGo, CI_POLICY]
  | cons s rest ih =>
      by_cases hE : s = "ERROR"
      · subst hE; simp [policyComputeCiGo, CI_POLICY]
      · by_cases hR : s = "REJECTED"
        · subst hR; simp [policyComputeCiGo, CI_POLICY]
        · simp [policyComputeCiGo, hE, hR, ih, List.mem_cons, Ne.symm hE, Ne.symm hR]

lemma policyComputeCiGo_passed (l : List String) :
    policyComputeCiGo "PASSED" l =
      (if "ERROR" ∈ l ∨ "REJECTED" ∈ l then ("ERROR", 3)
       else if "WARNING" ∈ l then ("WARNING", 0)
       else ("PASSED", 0)) := by
  induction l with
  | nil => simp [policyComputeCiGo, CI_POLICY]
  | cons s rest ih =>
      by_cases hE : s = "ERROR"
      · subst hE; simp [policyComputeCiGo, CI_POLICY]
      · by_cases hR : s = "REJECTED"
        · subst hR; simp [policyComputeCiGo, CI_POLICY]
        · by_cases hW : s = "WARNING"
          · subst hW
            simp [policyComputeCiGo, hE, hR, policyComputeCiGo_warning, List.mem_cons,
              Ne.symm hE, Ne.symm hR]
          · simp [policyComputeCiGo, hE, hR, hW, ih, List.mem_cons,
              Ne.symm hE, Ne.symm hR, Ne.symm hW]

/-- C1 (amended): `compute_ci` from `run_ci.py` behaves exactly as the claim
states (ERROR short-circuits to `("ERROR", 3)`; otherwise REJECTED gives
`("REJECTED", 2)`; otherwise WARNING gives `("WARNING", 0)`; otherwise
`("PASSED", 0)`), while `compute_ci` from `policy_engine.py` returns
`("ERROR", 3)` as soon as any status is ERROR or REJECTED, so a map
containing REJECTED but no ERROR yields `("ERROR", 3)`, not
`("REJECTED", 2)`. -/
theorem c1_compute_ci_amended (statuses : List String) :
    runCiComputeCi statuses =
      (if "ERROR" ∈ statuses then ("ERROR", 3)
       else if "REJECTED" ∈ statuses then ("REJECTED", 2)
       else if "WARNING" ∈ statuses then ("WARNING", 0)
       else ("PASSED", 0)) ∧
    policyComputeCi statuses =
      (if "ERROR" ∈ statuses ∨ "REJECTED" ∈ statuses then ("ERROR", 3)
       else if "WARNING" ∈ statuses then ("WARNING", 0)
       else ("PASSED", 0)) :=
  ⟨runCiComputeCiGo_passed statuses, policyComputeCiGo_passed statuses⟩

/-- C1 counterexample: for the status map with the single value REJECTED
(and no ERROR), `compute_ci` from `policy_engine.py` does not return
`("REJECTED", 2)` — it returns `("ERROR", 3)`. -/
theorem c1_counterexample : policyComputeCi ["REJECTED"] ≠ ("REJECTED", 2) := by
  decide

lemma foldl_escalateStatus_closed (c : String) (l : List String) :
    l.foldl escalateStatus c =
      (if "REJECTED" ∈ l then "REJECTED"
       else if "WARNING" ∈ l ∧ c ≠ "REJECTED" then "WARNING"
       else c) := by
  induction l generalizing c with
  | nil => simp
  | cons s rest ih =>
      by_cases hR : s = "REJECTED"
      · subst hR
        have : escalateStatus c "REJECTED" = "REJECTED" := by simp [escalateStatus]
        simp [this, ih, List.mem_cons]
      · by_cases hW : s = "WARNING"
        · subst hW
          by_cases hc : c = "REJECTED"
          · subst hc
            have h1 : escalateStatus "REJECTED" "WARNING" = "REJECTED" := by
              simp [escalateStatus]
            simp [h1, ih, List.mem_cons, hR, Ne.symm hR]
          · have h1 : escalateStatus c "WARNING" = "WARNING" := by
              simp [escalateStatus, hc]
            simp [h1, ih, List.mem_cons, hR, hc, Ne.symm hR]
        · have h1 : escalateStatus c s = c := by
            simp [escalateStatus, hR, hW]
          simp [h1, ih, List.mem_cons, hR, hW, Ne.symm hR, Ne.symm hW]

lemma segModuleRecord_closed (l : List String) :
    (segModuleRecord l).map Prod.fst = l.head? := by
  have aux : ∀ (rest : List String) (s : String) (n : Nat),
      rest.foldl segModuleStore (some (s, n)) = some (s, n + rest.length) := by
    intro rest
    induction rest with
    | nil => intro s n; simp
    | cons x xs ih =>
        intro s n
        have hstep : segModuleStore (some (s, n)) x = some (s, n + 1) := rfl
        rw [List.foldl_cons, hstep, ih]
        simp only [List.length_cons, Option.some.injEq, Prod.mk.injEq]
        exact ⟨trivial, by omega⟩
  cases l with
  | nil => simp [segModuleRecord]
  | cons s rest => simp [segModuleRecord, segModuleStore, aux]

/-- C2 (amended): for any arrival order, (a) the stored per-module status of
`MasterAggregator.aggregate` is REJECTED if any incoming status is
REJECTED, else WARNING if any is WARNING, else the initial value — so it
is order-independent and never downgraded, but an incoming ERROR (or
CRASHED) never escalates it; and (b) `aggregate_segments` keeps, per
module, the first effective status seen, not the maximum. -/
theorem c2_escalation_amended (c : String) (statuses : List String) :
    statuses.foldl escalateStatus c =
      (if "REJECTED" ∈ statuses then "REJECTED"
       else if "WARNING" ∈ statuses ∧ c ≠ "REJECTED" then "WARNING"
       else c) ∧
    moduleStoredStatus statuses =
      (if "REJECTED" ∈ statuses then "REJECTED"
       else if "WARNING" ∈ statuses then "WARNING"
       else "PASSED") ∧
    (segModuleRecord statuses).map Prod.fst = statuses.head? := by
  refine ⟨foldl_escalateStatus_closed c statuses, ?_, segModuleRecord_closed statuses⟩
  rw [moduleStoredStatus, foldl_escalateStatus_closed]
  have hne : ("PASSED" : String) ≠ "REJECTED" := by decide
  simp [hne]

/-- C2 counterexample: a module whose only report has status ERROR is stored
as PASSED by `MasterAggregator.aggregate`, not as the maximum (ERROR) of
the statuses seen. -/
theorem c2_counterexample : moduleStoredStatus ["ERROR"] ≠ "ERROR" := by
  decide

/-- C8 (amended): `validate_validator_output` raises iff one of the five
required keys is missing, or the status is not a member of
`STATUS_ENUM` — which is exactly `{PASSED, WARNING, REJECTED, ERROR}` and
excludes the synthetic states `CRASHED` and `NOT_APPLICABLE` — or the
status is not PASSED while events is empty; otherwise it accepts. -/
theorem c8_validate_amended (r : ReportDict) :
    exceptOk (validateValidatorOutput r) = false ↔
      ((r.module?.isNone ∨ r.video_file?.isNone ∨ r.status?.isNone ∨
          r.metrics?.isNone ∨ r.events?.isNone) ∨
        ∃ s evs, r.status? = some s ∧ r.events? = some evs ∧
          (s ∉ STATUS_ENUM ∨ (s ≠ "PASSED" ∧ evs = []))) := by
  rcases hm : r.module? with _ | m <;>
    rcases hv : r.video_file? with _ | v <;>
      rcases hs : r.status? with _ | s <;>
        rcases hmt : r.metrics? with _ | mt <;>
          rcases he : r.events? with _ | evs <;>
            simp only [validateValidatorOutput, hm, hv, hs, hmt, he] <;>
              try simp [exceptOk]
  by_cases hmem : s ∈ STATUS_ENUM
  · by_cases hp : s = "PASSED"
    · subst hp
      have h1 : ("PASSED" : String) ∈ STATUS_ENUM := by decide
      simp [exceptOk, h1]
    · by_cases hnil : evs = []
      · simp [exceptOk, hmem, hp, hnil]
      · simp [exceptOk, hmem, hp, hnil]
  · simp [exceptOk, hmem]

/-- C8 counterexample: a report carrying all five required keys, status
`"CRASHED"` and a non-empty event list is rejected by
`validate_validator_output`, although none of the claim's raise conditions
holds for it (in particular `"CRASHED"` is in the claim's version of the
closed Status enum). -/
theorem c8_counterexample :
    exceptOk (validateValidatorOutput
        { module? := some "frame_qc", video_file? := some "a.mp4",
          status? := some "CRASHED", metrics? := some [],
          events? := some [{ type := "crash", start_time := 0, end_time := 0,
                             details := "boom" }] }) = false ∧
      "CRASHED" ∈ c8ClaimStatusEnum ∧
      [{ type := "crash", start_time := 0, end_time := 0,
         details := "boom" : Event }] ≠ [] := by
  refine ⟨rfl, by decide, by simp⟩

/-- C3: policy non-regression.  In both resolver implementations, a report
with status REJECTED keeps effective status REJECTED under every profile
and every deviation list, and a report with status ERROR keeps effective
status ERROR under the `strict` profile. -/
theorem c3_policy_nonregression (r : ReportDict) (profile : String)
    (devs : List DevBlock) (m : String) :
    (r.status? = some "REJECTED" →
      runCiResolve r profile devs = (some "REJECTED", []) ∧
      (r.module? = some m → policyResolve r profile devs = .ok ("REJECTED", []))) ∧
    (r.status? = some "ERROR" →
      runCiResolve r "strict" devs = (some "ERROR", []) ∧
      (r.module? = some m → policyResolve r "strict" devs = .ok ("ERROR", []))) := by
  constructor
  · intro hstat
    constructor
    · simp [runCiResolve, hstat]
    · intro hmod
      simp [policyResolve, hstat, hmod]
  · intro hstat
    constructor
    · simp [runCiResolve, hstat]
    · intro hmod
      simp [policyResolve, hstat, hmod]

/-- C3 witness: concrete instances of the non-regression theorem. -/
theorem c3_policy_nonregression_witness :
    runCiResolve { module? := some "audio_qc", status? := some "REJECTED" } "ott" []
        = (some "REJECTED", []) ∧
      policyResolve { module? := some "audio_qc", status? := some "ERROR" } "strict" []
        = .ok ("ERROR", []) :=
  ⟨((c3_policy_nonregression
      { module? := some "audio_qc", status? := some "REJECTED" } "ott" [] "audio_qc").1
        rfl).1,
    ((c3_policy_nonregression
      { module? := some "audio_qc", status? := some "ERROR" } "strict" [] "audio_qc").2
        rfl).2 rfl⟩

/-- C4 (amended): for a report with status ERROR, a present module name and
a non-strict profile: the `run_ci.py` resolver yields NOT_APPLICABLE iff
the module is in the tooling allowlist, the error code is in the
deviation-eligible allowlist, and some deviation matches on both `module`
and `condition`; the `policy_engine.py` resolver instead yields
NOT_APPLICABLE as soon as some deviation matches on `module` alone
(condition ignored).  In each implementation the effective status is
ERROR otherwise. -/
theorem c4_deviation_gate_amended (r : ReportDict) (profile : String)
    (devs : List DevBlock) (m : String)
    (hstat : r.status? = some "ERROR") (hmod : r.module? = some m)
    (hprof : profile ≠ "strict") :
    ((runCiResolve r profile devs).1 = some "NOT_APPLICABLE" ↔
      (m ∈ TOOLING_MODULES ∧
        (∃ c, r.error_code? = some c ∧ c ∈ DEVIATION_ELIGIBLE_ERRORS) ∧
        ∃ dev ∈ devs, List.lookup "module" dev = some m ∧
          List.lookup "condition" dev = r.error_code?)) ∧
    ((runCiResolve r profile devs).1 = some "NOT_APPLICABLE" ∨
      (runCiResolve r profile devs).1 = some "ERROR") ∧
    ((∃ notes, policyResolve r profile devs = .ok ("NOT_APPLICABLE", notes)) ↔
      (m ∈ TOOLING_MODULES ∧
        (∃ c, r.error_code? = some c ∧ c ∈ DEVIATION_ELIGIBLE_ERRORS) ∧
        ∃ dev ∈ devs, List.lookup "module" dev = some m)) ∧
    ((∃ notes, policyResolve r profile devs = .ok ("NOT_APPLICABLE", notes)) ∨
      policyResolve r profile devs = .ok ("ERROR", [])) := by
  have hrc : runCiResolve r profile devs =
      (if optIn (some m) TOOLING_MODULES && optIn r.error_code? DEVIATION_ELIGIBLE_ERRORS then
        match devs.find? (runCiDevMatches (some m) r.error_code?) with
        | some dev => (some "NOT_APPLICABLE", [devAppliedNote dev])
        | none => (some "ERROR", [])
      else (some "ERROR", [])) := by
    simp [runCiResolve, hstat, hmod, hprof]
  have hpe : policyResolve r profile devs =
      .ok (if optIn (some m) TOOLING_MODULES &&
            optIn r.error_code? DEVIATION_ELIGIBLE_ERRORS then
        match devs.find? (fun dev => List.lookup "module" dev == some m) with
        | some dev => ("NOT_APPLICABLE", [devAppliedNote dev])
        | none => ("ERROR", [])
      else ("ERROR", [])) := by
    simp [policyResolve, hstat, hmod, hprof]
  by_cases htool : m ∈ TOOLING_MODULES
  · by_cases helig : optIn r.error_code? DEVIATION_ELIGIBLE_ERRORS = true
    · have hcond : (optIn (some m) TOOLING_MODULES &&
          optIn r.error_code? DEVIATION_ELIGIBLE_ERRORS) = true := by
        rw [Bool.and_eq_true]
        exact ⟨by simp [optIn, htool], helig⟩
      obtain ⟨c, hc, hcel⟩ : ∃ c, r.error_code? = some c ∧ c ∈ DEVIATION_ELIGIBLE_ERRORS := by
        rcases hec : r.error_code? with _ | c
        · rw [hec] at helig; simp [optIn] at helig
        · rw [hec] at helig; simp [optIn] at helig
          exact ⟨c, rfl, helig⟩
      rw [hcond] at hrc hpe
      constructor
      · -- run_ci iff
        rcases hfind : devs.find? (runCiDevMatches (some m) r.error_code?) with _ | dev
        · rw [hfind] at hrc
          simp only [hrc]
          constructor
          · intro h; simp at h
          · rintro ⟨-, -, dev, hdev, hm1, hc1⟩
            have := List.find?_eq_none.mp hfind dev hdev
            simp [runCiDevMatches, hm1, hc1] at this
        · rw [hfind] at hrc
          have hp := List.find?_some hfind
          have hmemdev := List.mem_of_find?_eq_some hfind
          simp only [runCiDevMatches, Bool.and_eq_true, beq_iff_eq] at hp
          simp only [hrc]
          refine ⟨fun _ => ⟨htool, ⟨c, hc, hcel⟩, dev, hmemdev, hp.1, hp.2⟩, fun _ => rfl⟩
      refine ⟨?_, ?_, ?_⟩
      · -- dichotomy for run_ci
        rcases hfind : devs.find? (runCiDevMatches (some m) r.error_code?) with _ | dev <;>
          rw [hfind] at hrc <;> simp [hrc]
      · -- policy_engine iff
        rcases hfind : devs.find? (fun dev => List.lookup "module" dev == some m) with _ | dev
        · rw [hfind] at hpe
          simp only [hpe]
          constructor
          · intro h; simp at h
          · rintro ⟨-, -, dev, hdev, hm1⟩
            have := List.find?_eq_none.mp hfind dev hdev
            simp [hm1] at this
        · rw [hfind] at hpe
          have hp := List.find?_some hfind
          have hmemdev := List.mem_of_find?_eq_some hfind
          simp only [beq_iff_eq] at hp
          simp only [hpe]
          exact ⟨fun _ => ⟨htool, ⟨c, hc, hcel⟩, dev, hmemdev, hp⟩,
            fun _ => ⟨[devAppliedNote dev], rfl⟩⟩
      · -- dichotomy for policy_engine
        rcases hfind : devs.find? (fun dev => List.lookup "module" dev == some m) with _ | dev <;>
          rw [hfind] at hpe <;> simp [hpe]
    · have hcond : (optIn (some m) TOOLING_MODULES &&
          optIn r.error_code? DEVIATION_ELIGIBLE_ERRORS) = false := by
        rcases hx : optIn r.error_code? DEVIATION_ELIGIBLE_ERRORS with _ | _
        · simp [hx]
        · exact absurd hx helig
      rw [hcond] at hrc hpe
      have hnoec : ¬ ∃ c, r.error_code? = some c ∧ c ∈ DEVIATION_ELIGIBLE_ERRORS := by
        rintro ⟨c, hc, hcel⟩
        exact helig (by simp [optIn, hc, hcel])
      simp only [hrc, hpe]
      refine ⟨by simp [hnoec], by simp, by simp [hnoec], by simp⟩
  · have hcond : (optIn (some m) TOOLING_MODULES &&
        optIn r.error_code? DEVIATION_ELIGIBLE_ERRORS) = false := by
      simp [optIn, htool]
    rw [hcond] at hrc hpe
    simp only [hrc, hpe]
    refine ⟨by simp [htool], by simp, by simp [htool], by simp⟩

/-- C4 witness: under `ott`, a tooling ERROR with an eligible error code and
a deviation matching module and condition resolves to NOT_APPLICABLE in
the `run_ci.py` resolver. -/
theorem c4_deviation_gate_witness :
    (runCiResolve
        { module? := some "qctools_qc", status? := some "ERROR",
          error_code? := some "QCTOOLS_UNAVAILABLE" } "ott"
        [[("id", "DEV-001"), ("module", "qctools_qc"),
          ("condition", "QCTOOLS_UNAVAILABLE")]]).1 = some "NOT_APPLICABLE" :=
  ((c4_deviation_gate_amended
      { module? := some "qctools_qc", status? := some "ERROR",
        error_code? := some "QCTOOLS_UNAVAILABLE" } "ott"
      [[("id", "DEV-001"), ("module", "qctools_qc"),
        ("condition", "QCTOOLS_UNAVAILABLE")]] "qctools_qc"
      rfl rfl (by decide)).1).mpr
    ⟨by decide, ⟨"QCTOOLS_UNAVAILABLE", rfl, by decide⟩,
      [("id", "DEV-001"), ("module", "qctools_qc"), ("condition", "QCTOOLS_UNAVAILABLE")],
      by decide, by decide, by decide⟩

/-- C4 counterexample: under `ott`, for a tooling ERROR with eligible error
code `QCTOOLS_UNAVAILABLE` and a single deviation whose `condition` is
`OTHER` (so no deviation matches both module and condition), the
`policy_engine.py` resolver still returns NOT_APPLICABLE instead of
leaving the status at ERROR. -/
theorem c4_counterexample :
    policyResolve
        { module? := some "qctools_qc", status? := some "ERROR",
          error_code? := some "QCTOOLS_UNAVAILABLE" } "ott"
        [[("id", "DEV-001"), ("module", "qctools_qc"), ("condition", "OTHER")]]
      = .ok ("NOT_APPLICABLE", ["Deviation applied: DEV-001"]) ∧
    ([[("id", "DEV-001"), ("module", "qctools_qc"), ("condition", "OTHER")]] :
        List DevBlock).all
      (fun dev => !(List.lookup "condition" dev == some "QCTOOLS_UNAVAILABLE")) = true := by
  exact ⟨rfl, by decide⟩

lemma loadStep_fst_all {p : DevBlock → Bool}
    (commit : List DevBlock → DevBlock → List DevBlock)
    (hc : ∀ devs block, devs.all p = true → (commit devs block).all p = true)
    (acc : List DevBlock × DevBlock) (line : String)
    (h : acc.1.all p = true) : ((loadStep commit acc line).1).all p = true := by
  simp only [loadStep]
  by_cases hblank : pyStrip line = ""
  · simp only [hblank, if_pos, if_true]
    by_cases hpend : acc.2 ≠ []
    · simp only [if_pos hpend]
      exact hc _ _ h
    · simp only [if_neg hpend]
      exact h
  · simp only [if_neg hblank]
    rcases hkv : splitKV (pyStrip line) with _ | ⟨k, v⟩
    · exact h
    · exact h

lemma foldl_loadStep_fst_all {p : DevBlock → Bool}
    (commit : List DevBlock → DevBlock → List DevBlock)
    (hc : ∀ devs block, devs.all p = true → (commit devs block).all p = true) :
    ∀ (lines : List String) (acc : List DevBlock × DevBlock),
      acc.1.all p = true → ((lines.foldl (loadStep commit) acc).1).all p = true := by
  intro lines
  induction lines with
  | nil => intro acc h; exact h
  | cons line rest ih =>
      intro acc h
      exact ih (loadStep commit acc line) (loadStep_fst_all commit hc acc line h)

lemma loadBlocks_all {p : DevBlock → Bool}
    (commit : List DevBlock → DevBlock → List DevBlock)
    (hc : ∀ devs block, devs.all p = true → (commit devs block).all p = true)
    (lines : List String) : (loadBlocks commit lines).all p = true := by
  simp only [loadBlocks]
  have h := foldl_loadStep_fst_all commit hc lines ([], []) rfl
  by_cases hpend : (lines.foldl (loadStep commit) ([], [])).2 ≠ []
  · simp only [if_pos hpend]
    exact hc _ _ h
  · simp only [if_neg hpend]
    exact h

lemma policyCommit_expires_all (today : PDate) (profile : String)
    (devs : List DevBlock) (block : DevBlock)
    (h : devs.all (fun b => (List.lookup "expires" b).isSome) = true) :
    (policyCommit today profile devs block).all
      (fun b => (List.lookup "expires" b).isSome) = true := by
  simp only [policyCommit]
  rcases hpf : List.lookup "profiles" block with _ | profs
  · exact h
  · by_cases hsub : strIn profile profs = false
    · simp only [if_pos hsub]; exact h
    · simp only [if_neg hsub]
      rcases hes : List.lookup "expires" block with _ | es
      · exact h
      · dsimp only
        rcases hpd : parseDate es with _ | expires
        · exact h
        · dsimp only
          by_cases hlt : PDate.ltB expires today = true
          · simp only [if_pos hlt]; exact h
          · simp only [if_neg hlt]
            rw [List.all_append]
            refine (Bool.and_eq_true ..).mpr ⟨h, ?_⟩
            simp [hes]

lemma runCiCommit_expires_all (today : PDate)
    (devs : List DevBlock) (block : DevBlock)
    (h : devs.all (fun b => (List.lookup "expires" b).isSome) = true) :
    (runCiCommit today devs block).all
      (fun b => (List.lookup "expires" b).isSome) = true := by
  simp only [runCiCommit]
  rcases hes : List.lookup "expires" block with _ | es
  · exact h
  · dsimp only
    rcases hpd : parseDate es with _ | expires
    · exact h
    · dsimp only
      by_cases hlt : PDate.ltB expires today = true
      · simp only [if_pos hlt]; exact h
      · simp only [if_neg hlt]
        rw [List.all_append]
        refine (Bool.and_eq_true ..).mpr ⟨h, ?_⟩
        simp [hes]

/-- C5: both deviation loaders only ever commit a block that carries a key
literally spelled `expires`, and both discard every block of the
documented record format (spec §6 / `KNOWN_DEVIATION_SCHEMA`), whose key
is `expires_on` — even an unexpired, profile-matching block such as the
documented sample, loaded under profile `ott` well before its
`expires_on: 2099-12-31`. -/
theorem c5_loader_expires_key (lines : List String) (today : PDate) (profile : String) :
    (loadKnownDeviationsPolicy lines today profile).all
        (fun b => (List.lookup "expires" b).isSome) = true ∧
    (loadKnownDeviationsRunCi lines today profile).all
        (fun b => (List.lookup "expires" b).isSome) = true ∧
    loadKnownDeviationsPolicy sampleDeviationLines ⟨2026, 10, 12⟩ "ott" = [] ∧
    loadKnownDeviationsRunCi sampleDeviationLines ⟨2026, 10, 12⟩ "ott" = [] := by
  refine ⟨?_, ?_, by decide, by decide⟩
  · exact loadBlocks_all _ (policyCommit_expires_all today profile) lines
  · by_cases hprof : profile ≠ "ott"
    · simp [loadKnownDeviationsRunCi, hprof]
    · simp only [loadKnownDeviationsRunCi, if_neg hprof]
      exact loadBlocks_all _ (runCiCommit_expires_all today) lines

lemma runRetryGo_cons_success (module : String) (d : ReportDict) (a : Attempt)
    (rest : List Attempt) (hf : a.file = some (.valid d)) (he : a.exitCode = 0) :
    runRetryGo module (a :: rest) =
      { result := { module := module, status := statusFromReport d },
        finalFile := some (.valid d), attemptsUsed := 1 } := by
  simp [runRetryGo, hf, he]

lemma runRetryGo_cons_fail (module : String) (a : Attempt) (rest : List Attempt)
    (hfail : attemptSuccess a = false) :
    runRetryGo module (a :: rest) =
      { result := (runRetryGo module rest).result,
        finalFile := (runRetryGo module rest).finalFile,
        attemptsUsed := (runRetryGo module rest).attemptsUsed + 1 } := by
  rcases hf : a.file with _ | fc
  · simp [runRetryGo, hf]
  · rcases fc with _ | d
    · simp [runRetryGo, hf]
    · have hexit : (a.exitCode == 0) = false := by
        simpa [attemptSuccess, hf] using hfail
      simp [runRetryGo, hf, hexit]

lemma runRetryGo_attempts_le (module : String) :
    ∀ l : List Attempt, (runRetryGo module l).attemptsUsed ≤ l.length := by
  intro l
  induction l with
  | nil => simp [runRetryGo]
  | cons a rest ih =>
      rcases hs : attemptSuccess a with _ | _
      · rw [runRetryGo_cons_fail module a rest hs]
        simpa using Nat.add_le_add_right ih 1
      · have he : a.exitCode = 0 := by
          simp [attemptSuccess] at hs
          exact hs.1
        have hf : ∃ d, a.file = some (.valid d) := by
          simp [attemptSuccess] at hs
          rcases hx : a.file with _ | fc
          · rw [hx] at hs; simp at hs
          · rcases fc with _ | d
            · rw [hx] at hs; simp at hs
            · exact ⟨d, rfl⟩
        obtain ⟨d, hf⟩ := hf
        rw [runRetryGo_cons_success module d a rest hf he]
        simp

lemma runRetryGo_final_valid (module : String) :
    ∀ l : List Attempt, ∃ d, (runRetryGo module l).finalFile = some (.valid d) := by
  intro l
  induction l with
  | nil => exact ⟨crashReportDict module, rfl⟩
  | cons a rest ih =>
      rcases hs : attemptSuccess a with _ | _
      · rw [runRetryGo_cons_fail module a rest hs]
        exact ih
      · have he : a.exitCode = 0 := by
          simp [attemptSuccess] at hs
          exact hs.1
        have hf : ∃ d, a.file = some (.valid d) := by
          simp [attemptSuccess] at hs
          rcases hx : a.file with _ | fc
          · rw [hx] at hs; simp at hs
          · rcases fc with _ | d
            · rw [hx] at hs; simp at hs
            · exact ⟨d, rfl⟩
        obtain ⟨d, hf⟩ := hf
        rw [runRetryGo_cons_success module d a rest hf he]
        exact ⟨d, rfl⟩

/-- C6: the supervisor makes at most `MAX_RETRIES + 1` subprocess attempts
and always returns (it is a total function of the attempt outcomes — no
validator failure is re-raised); after it returns, a parseable report
always sits at the output path; the first attempt with exit code 0 and an
existing, parseable output file returns immediately with that report; and
when every attempt fails, the synthesized report written to the output
path carries `status = "CRASHED"` and `effective_status = "CRASHED"`. -/
theorem c6_supervisor (module : String) (att : Nat → Attempt) :
    (runValidatorWithRetry module att).attemptsUsed ≤ MAX_RETRIES + 1 ∧
    (∃ d, (runValidatorWithRetry module att).finalFile = some (.valid d)) ∧
    (∀ k d, 1 ≤ k → k ≤ MAX_RETRIES + 1 →
      (∀ i, 1 ≤ i → i < k → attemptSuccess (att i) = false) →
      (att k).exitCode = 0 → (att k).file = some (.valid d) →
      runValidatorWithRetry module att =
        { result := { module := module, status := statusFromReport d },
          finalFile := some (.valid d), attemptsUsed := k }) ∧
    ((∀ i, 1 ≤ i → i ≤ MAX_RETRIES + 1 → attemptSuccess (att i) = false) →
      runValidatorWithRetry module att =
        { result := { module := module, status := "CRASHED" },
          finalFile := some (.valid (crashReportDict module)),
          attemptsUsed := MAX_RETRIES + 1 } ∧
      (crashReportDict module).status? = some "CRASHED" ∧
      (crashReportDict module).effective_status? = some "CRASHED") := by
  have heq : runValidatorWithRetry module att =
      runRetryGo module [att 1, att 2, att 3] := rfl
  refine ⟨?_, ?_, ?_, ?_⟩
  · rw [heq]
    simpa using runRetryGo_attempts_le module [att 1, att 2, att 3]
  · rw [heq]
    exact runRetryGo_final_valid module [att 1, att 2, att 3]
  · intro k d hk1 hk3 hfails hexit hfile
    have hk3' : k ≤ 3 := hk3
    interval_cases k
    · rw [heq, runRetryGo_cons_success module d (att 1) [att 2, att 3] hfile hexit]
    · have hf1 : attemptSuccess (att 1) = false := hfails 1 le_rfl (by omega)
      rw [heq, runRetryGo_cons_fail module (att 1) [att 2, att 3] hf1,
        runRetryGo_cons_success module d (att 2) [att 3] hfile hexit]
    · have hf1 : attemptSuccess (att 1) = false := hfails 1 le_rfl (by omega)
      have hf2 : attemptSuccess (att 2) = false := hfails 2 (by omega) (by omega)
      rw [heq, runRetryGo_cons_fail module (att 1) [att 2, att 3] hf1,
        runRetryGo_cons_fail module (att 2) [att 3] hf2,
        runRetryGo_cons_success module d (att 3) [] hfile hexit]
  · intro hfails
    have hf1 : attemptSuccess (att 1) = false := hfails 1 le_rfl (by decide)
    have hf2 : attemptSuccess (att 2) = false := hfails 2 (by omega) (by decide)
    have hf3 : attemptSuccess (att 3) = false := hfails 3 (by omega) (by decide)
    refine ⟨?_, rfl, rfl⟩
    rw [heq, runRetryGo_cons_fail module (att 1) [att 2, att 3] hf1,
      runRetryGo_cons_fail module (att 2) [att 3] hf2,
      runRetryGo_cons_fail module (att 3) [] hf3]
    rfl

/-- C6 witness: with every attempt failing (exit code 1, no output file),
the supervisor synthesizes the crash report after exactly 3 attempts. -/
theorem c6_supervisor_witness :
    runValidatorWithRetry "validate_frames" (fun _ => { exitCode := 1, file := none }) =
      { result := { module := "validate_frames", status := "CRASHED" },
        finalFile := some (.valid (crashReportDict "validate_frames")),
        attemptsUsed := MAX_RETRIES + 1 } :=
  ((c6_supervisor "validate_frames" (fun _ => { exitCode := 1, file := none })).2.2.2
    (fun _ _ _ => rfl)).1

/-- C10: the crash report synthesized by `run_validator_with_retry` omits
the required keys `video_file`, `metrics` and `events`, its status
`"CRASHED"` is not in the schema's `STATUS_ENUM`, and
`validate_validator_output` always raises on it — so a crashed
validator's report can never pass the schema-validation stage. -/
theorem c10_crash_report_fails_schema (module : String) :
    (crashReportDict module).video_file? = none ∧
    (crashReportDict module).metrics? = none ∧
    (crashReportDict module).events? = none ∧
    (crashReportDict module).status? = some "CRASHED" ∧
    "CRASHED" ∉ STATUS_ENUM ∧
    exceptOk (validateValidatorOutput (crashReportDict module)) = false :=
  ⟨rfl, rfl, rfl, rfl, by decide, rfl⟩

lemma lookup_none_any_false {β : Type} (d : List (String × β)) (k : String)
    (h : List.lookup k d = none) : d.any (fun p => p.1 == k) = false := by
  induction d with
  | nil => rfl
  | cons p rest ih =>
      rcases hbeq : (k == p.1) with _ | _
      · have h' : List.lookup k rest = none := by
          simpa [List.lookup, hbeq] using h
        have hsym : (p.1 == k) = false := by
          rw [beq_eq_false_iff_ne] at hbeq ⊢
          exact fun hx => hbeq hx.symm
        simp [hsym, ih h']
      · simp [List.lookup, hbeq] at h

lemma lookup_dictSet_fresh {β : Type} (d : List (String × β)) (k : String) (v : β)
    (h : List.lookup k d = none) : List.lookup k (dictSet d k v) = some v := by
  rw [dictSet, lookup_none_any_false d k h, if_neg (by simp)]
  induction d with
  | nil => simp [List.lookup]
  | cons p rest ih =>
      rcases hbeq : (k == p.1) with _ | _
      · have h' : List.lookup k rest = none := by
          simpa [List.lookup, hbeq] using h
        simpa [List.lookup, hbeq] using ih h'
      · simp [List.lookup, hbeq] at h

/-- C7 (amended): in `MasterAggregator._merge_details`, each dict item of a
list-valued detail entry contributed to the aggregate has exactly its
`timestamp`, `start_sec` and `end_sec` fields replaced by
`round(local + offset, 3)`, while its `start_time` and `end_time` fields
keep the segment-local value; in `generate_master_report`, each collected
event has exactly its `start_time` and `end_time` increased by the
report's `segment_offset_sec`. -/
theorem c7_offset_amended (offset : Rat) (it : EItem) (m : String) (e : Event)
    (master : List (String × DetailValue)) (key : String) (xs : List DetailItem)
    (hkey : List.lookup key master = none) :
    (adjustItem offset it).start_time = it.start_time ∧
    (adjustItem offset it).end_time = it.end_time ∧
    (adjustItem offset it).timestamp = it.timestamp.map (fun t => pyRound3 (t + offset)) ∧
    (adjustItem offset it).start_sec = it.start_sec.map (fun t => pyRound3 (t + offset)) ∧
    (adjustItem offset it).end_sec = it.end_sec.map (fun t => pyRound3 (t + offset)) ∧
    (normalizeEvent offset m e).start_time = e.start_time + offset ∧
    (normalizeEvent offset m e).end_time = e.end_time + offset ∧
    List.lookup key (mergeDetails master [(key, .list xs)] offset) =
      some (.list (xs.map (adjustDetailItem offset))) := by
  refine ⟨rfl, rfl, rfl, rfl, rfl, rfl, rfl, ?_⟩
  have hstep : mergeDetails master [(key, .list xs)] offset =
      dictSet master key (.list (xs.map (adjustDetailItem offset))) := by
    simp [mergeDetails, mergeDetailsStep, hkey]
  rw [hstep]
  exact lookup_dictSet_fresh master key _ hkey

/-- C7 witness: merging a fresh `events` list performs the documented
adjustment (here on an empty list). -/
theorem c7_offset_witness :
    List.lookup "events" (mergeDetails [] [("events", DetailValue.list [])] 5) =
      some (DetailValue.list []) :=
  (c7_offset_amended 5 {} "m"
      { type := "t", start_time := 0, end_time := 0, details := "" }
      [] "events" [] rfl).2.2.2.2.2.2.2

/-- C7 counterexample: a segment detail event at local `start_time = 2`
merged with offset 300 keeps `start_time = 2` in the aggregate — it is
not shifted to `302` as the claim requires for every time field. -/
theorem c7_counterexample :
    mergeDetails []
        [("events", DetailValue.list [.dict { start_time := some 2, end_time := some 5 }])]
        300 =
      [("events", DetailValue.list [.dict { start_time := some 2, end_time := some 5 }])] ∧
    (2 : Rat) + 300 ≠ 2 := by
  refine ⟨rfl, by norm_num⟩

lemma filter_orderedInsert_class {α : Type} (le : α → α → Prop) [DecidableRel le]
    (p : α → Bool) (a : α) (h : ∀ x y, p x = true → p y = true → le x y)
    (l : List α) :
    (List.orderedInsert le a l).filter p =
      if p a then a :: l.filter p else l.filter p := by
  induction l with
  | nil =>
      by_cases hpa : p a = true
      · simp [List.orderedInsert, List.filter_cons, hpa]
      · simp [List.orderedInsert, List.filter_cons, hpa]
  | cons b l ih =>
      by_cases hle : le a b
      · rw [List.orderedInsert, if_pos hle]
        by_cases hpa : p a = true
        · simp [List.filter_cons, hpa]
        · simp [List.filter_cons, hpa]
      · rw [List.orderedInsert, if_neg hle]
        by_cases hpa : p a = true
        · have hpb : p b = false := by
            rcases hx : p b with _ | _
            · rfl
            · exact absurd (h a b hpa hx) hle
          rw [List.filter_cons, if_neg (by simp [hpb]), ih,
            if_pos hpa, if_pos hpa, List.filter_cons, if_neg (by simp [hpb])]
        · have hpa' : p a = false := by
            rcases hx : p a with _ | _
            · rfl
            · exact absurd hx hpa
          rw [List.filter_cons, ih, if_neg hpa, if_neg hpa, List.filter_cons]

lemma filter_insertionSort_class {α : Type} (le : α → α → Prop) [DecidableRel le]
    (p : α → Bool) (h : ∀ x y, p x = true → p y = true → le x y)
    (l : List α) :
    (List.insertionSort le l).filter p = l.filter p := by
  induction l with
  | nil => rfl
  | cons a l ih =>
      rw [List.insertionSort, filter_orderedInsert_class le p a h, ih,
        List.filter_cons]

lemma sorted_eq_of_filters {α κ : Type} [LinearOrder κ] (k : α → κ) :
    ∀ l₁ l₂ : List α, List.Pairwise (keyLe k) l₁ → List.Pairwise (keyLe k) l₂ →
      (∀ v, l₁.filter (fun a => decide (k a = v)) =
        l₂.filter (fun a => decide (k a = v))) →
      l₁ = l₂ := by
  intro l₁
  induction l₁ with
  | nil =>
      intro l₂ _ _ hf
      cases l₂ with
      | nil => rfl
      | cons b t₂ =>
          have hb := hf (k b)
          simp only [List.filter_nil, List.filter_cons, decide_eq_true_eq] at hb
          rw [if_pos trivial] at hb
          cases hb
  | cons a t₁ ih =>
      intro l₂ h₁ h₂ hf
      cases l₂ with
      | nil =>
          have ha := hf (k a)
          simp only [List.filter_nil, List.filter_cons, decide_eq_true_eq] at ha
          rw [if_pos trivial] at ha
          cases ha
      | cons b t₂ =>
          have hfa := hf (k a)
          simp only [List.filter_cons, decide_eq_true_eq] at hfa
          rw [if_pos trivial] at hfa
          by_cases hba : k b = k a
          · rw [if_pos hba] at hfa
            have hab : a = b := ((List.cons.injEq ..).mp hfa).1
            have htails : ∀ v, t₁.filter (fun x => decide (k x = v)) =
                t₂.filter (fun x => decide (k x = v)) := by
              intro v
              by_cases hv : v = k a
              · subst hv
                exact ((List.cons.injEq ..).mp hfa).2
              · have hthis := hf v
                simp only [List.filter_cons, decide_eq_true_eq] at hthis
                rw [if_neg (fun hx => hv hx.symm),
                  if_neg (fun hx => hv ((hba ▸ hx : k a = v)).symm)] at hthis
                exact hthis
            rw [hab, ih t₂ (List.pairwise_cons.mp h₁).2 (List.pairwise_cons.mp h₂).2 htails]
          · rw [if_neg hba] at hfa
            have ha2 : a ∈ t₂ := by
              have hmem : a ∈ t₂.filter (fun x => decide (k x = k a)) := by
                rw [← hfa]
                exact List.mem_cons_self a _
              exact List.mem_of_mem_filter hmem
            have hba_le : k b ≤ k a := (List.pairwise_cons.mp h₂).1 a ha2
            have hfb := hf (k b)
            simp only [List.filter_cons, decide_eq_true_eq] at hfb
            have hcab : ¬(k a = k b) := fun hx => hba hx.symm
            rw [if_neg hcab, if_pos trivial] at hfb
            have hb1 : b ∈ t₁ := by
              have hmem : b ∈ t₁.filter (fun x => decide (k x = k b)) := by
                rw [hfb]
                exact List.mem_cons_self b _
              exact List.mem_of_mem_filter hmem
            have hab_le : k a ≤ k b := (List.pairwise_cons.mp h₁).1 b hb1
            exact absurd (le_antisymm hba_le hab_le) hba

lemma tsKey_eq_startKey_eq {x y : Event} (h : tsKey x = tsKey y) :
    startKey x = startKey y :=
  congrArg (fun z => (ofLex z).2) h

lemma pySorted_restore (w : List Event) (hw : List.Pairwise (keyLe tsKey) w) :
    pySorted tsKey (pySorted startKey w) = w := by
  apply sorted_eq_of_filters tsKey
  · exact List.sorted_insertionSort (keyLe tsKey) _
  · exact hw
  · intro v
    rw [pySorted, pySorted,
      filter_insertionSort_class (keyLe tsKey) _
        (fun x y hx hy => by
          simp only [decide_eq_true_eq] at hx hy
          exact le_of_eq (hx.trans hy.symm)),
      filter_insertionSort_class (keyLe startKey) _
        (fun x y hx hy => by
          simp only [decide_eq_true_eq] at hx hy
          exact le_of_eq (tsKey_eq_startKey_eq (hx.trans hy.symm)))]

lemma stitchWalk_head (tol : Rat) :
    ∀ (rest : List Event) (cur : Event),
      ∃ c t, stitchWalk tol cur rest = c :: t ∧
        c.type = cur.type ∧ c.start_time = cur.start_time := by
  intro rest
  induction rest with
  | nil => intro cur; exact ⟨cur, [], rfl, rfl, rfl⟩
  | cons e es ih =>
      intro cur
      by_cases h : cur.type = e.type ∧ e.start_time ≤ cur.end_time + tol
      · obtain ⟨c, t, heq, hty, hst⟩ := ih (mergeEvents cur e)
        refine ⟨c, t, ?_, hty, hst⟩
        simp only [stitchWalk]
        rw [if_pos h]
        exact heq
      · refine ⟨cur, stitchWalk tol e es, ?_, rfl, rfl⟩
        simp only [stitchWalk]
        rw [if_neg h]

lemma stitchWalk_key_mem (tol : Rat) :
    ∀ (rest : List Event) (cur : Event) (x : Event),
      x ∈ stitchWalk tol cur rest → ∃ y ∈ cur :: rest, tsKey x = tsKey y := by
  intro rest
  induction rest with
  | nil =>
      intro cur x hx
      simp only [stitchWalk, List.mem_singleton] at hx
      exact ⟨cur, List.mem_cons_self cur _, by rw [hx]⟩
  | cons e es ih =>
      intro cur x hx
      by_cases h : cur.type = e.type ∧ e.start_time ≤ cur.end_time + tol
      · simp only [stitchWalk] at hx
        rw [if_pos h] at hx
        obtain ⟨y, hy, hk⟩ := ih (mergeEvents cur e) x hx
        rcases List.mem_cons.mp hy with hy1 | hy2
        · exact ⟨cur, List.mem_cons_self cur _, by rw [hk, hy1]; rfl⟩
        · exact ⟨y, List.mem_cons_of_mem cur (List.mem_cons_of_mem e hy2), hk⟩
      · simp only [stitchWalk] at hx
        rw [if_neg h] at hx
        rcases List.mem_cons.mp hx with hx1 | hx2
        · exact ⟨cur, List.mem_cons_self cur _, by rw [hx1]⟩
        · obtain ⟨y, hy, hk⟩ := ih e x hx2
          exact ⟨y, List.mem_cons_of_mem cur hy, hk⟩

lemma stitchWalk_pairwise (tol : Rat) :
    ∀ (rest : List Event) (cur : Event),
      List.Pairwise (keyLe tsKey) (cur :: rest) →
      List.Pairwise (keyLe tsKey) (stitchWalk tol cur rest) := by
  intro rest
  induction rest with
  | nil =>
      intro cur _
      simp [stitchWalk]
  | cons e es ih =>
      intro cur hp
      obtain ⟨hcur, hrest⟩ := List.pairwise_cons.mp hp
      by_cases h : cur.type = e.type ∧ e.start_time ≤ cur.end_time + tol
      · simp only [stitchWalk]
        rw [if_pos h]
        apply ih (mergeEvents cur e)
        apply List.pairwise_cons.mpr
        refine ⟨?_, (List.pairwise_cons.mp hrest).2⟩
        intro b hb
        exact hcur b (List.mem_cons_of_mem e hb)
      · simp only [stitchWalk]
        rw [if_neg h]
        apply List.pairwise_cons.mpr
        constructor
        · intro b hb
          obtain ⟨y, hy, hk⟩ := stitchWalk_key_mem tol es e b hb
          have hcy : tsKey cur ≤ tsKey y := hcur y hy
          show tsKey cur ≤ tsKey b
          rw [hk]
          exact hcy
        · exact ih e hrest

lemma stitchWalk_chain (tol : Rat) :
    ∀ (rest : List Event) (cur : Event),
      List.Chain' (sepAt tol) (stitchWalk tol cur rest) := by
  intro rest
  induction rest with
  | nil =>
      intro cur
      simp [stitchWalk]
  | cons e es ih =>
      intro cur
      by_cases h : cur.type = e.type ∧ e.start_time ≤ cur.end_time + tol
      · simp only [stitchWalk]
        rw [if_pos h]
        exact ih (mergeEvents cur e)
      · simp only [stitchWalk]
        rw [if_neg h]
        obtain ⟨c, t, heq, hty, hst⟩ := stitchWalk_head tol es e
        rw [heq]
        have hchain : List.Chain' (sepAt tol) (c :: t) := heq ▸ ih e
        have hsep : sepAt tol cur c := by
          intro hty2
          have htyce : cur.type = e.type := hty2.trans hty
          have hnle : ¬ e.start_time ≤ cur.end_time + tol := fun hle => h ⟨htyce, hle⟩
          rw [hst]
          exact lt_of_not_le hnle
        exact List.chain'_cons.mpr ⟨hsep, hchain⟩

lemma stitchWalk_id (tol : Rat) :
    ∀ (rest : List Event) (cur : Event),
      List.Chain' (sepAt tol) (cur :: rest) → stitchWalk tol cur rest = cur :: rest := by
  intro rest
  induction rest with
  | nil => intro cur _; rfl
  | cons e es ih =>
      intro cur hch
      obtain ⟨hsep, hch'⟩ := List.chain'_cons.mp hch
      have hnot : ¬ (cur.type = e.type ∧ e.start_time ≤ cur.end_time + tol) := by
        rintro ⟨hty, hle⟩
        exact absurd hle (not_le.mpr (hsep hty))
      simp only [stitchWalk]
      rw [if_neg hnot, ih e hch']

/-- C9: stitching is idempotent — applying `stitch_events` to an
already-stitched event list is a no-op, for every tolerance and every
list of events. -/
theorem c9_stitch_idempotent (tol : Rat) (events : List Event) :
    stitch_events tol (stitch_events tol events) = stitch_events tol events := by
  rcases hs : pySorted tsKey events with _ | ⟨c, rest⟩
  · have h1 : stitch_events tol events = [] := by
      simp [stitch_events, hs]
    rw [h1]
    rfl
  · have hsorted : List.Pairwise (keyLe tsKey) (c :: rest) := by
      have h := List.sorted_insertionSort (keyLe tsKey) events
      rw [show List.insertionSort (keyLe tsKey) events = c :: rest from hs] at h
      exact h
    have hwp := stitchWalk_pairwise tol rest c hsorted
    have hchain := stitchWalk_chain tol rest c
    have hrestore := pySorted_restore (stitchWalk tol c rest) hwp
    have h1 : stitch_events tol events = pySorted startKey (stitchWalk tol c rest) := by
      simp [stitch_events, hs]
    rw [h1]
    obtain ⟨c', t', hw_eq, -, -⟩ := stitchWalk_head tol rest c
    have h2 : pySorted tsKey (pySorted startKey (stitchWalk tol c rest)) = c' :: t' := by
      rw [hrestore, hw_eq]
    have h3 : stitch_events tol (pySorted startKey (stitchWalk tol c rest)) =
        pySorted startKey (stitchWalk tol c' t') := by
      simp [stitch_events, h2]
    rw [h3, stitchWalk_id tol t' c' (hw_eq ▸ hchain), ← hw_eq]

end AQC
